import Mathlib

/-!
Shallow embedding of the `bllvm-bench` parallel differential harness
(`src/parallel_differential.rs`) and of the chunked, compressed block
cache reader (`src/chunked_cache.rs`).

External collaborators that are not part of this repository's sources
(the `blvm_consensus` crate's `connect_block` and
`deserialize_block_with_witnesses`, the block-file reader and the RPC
clients) are abstracted as function parameters of the embedded
operations; where a claim depends on their behaviour, that behaviour is
modelled from the specification and stated as an explicit, named
hypothesis.  Byte strings are modelled as `List Nat`, machine integers
as `Nat` (the code never exercises `u64`/`u32`/`usize` overflow on the
quantities involved: heights, lengths and counts).
-/

/-! ## Chunked cache reader (`src/chunked_cache.rs`) -/

/-- Little-endian `u32` decoding of the four bytes of a length frame,
as `u32::from_le_bytes(len_buf)` computes it for bytes `b0 b1 b2 b3`. -/
def frameLen (b0 b1 b2 b3 : Nat) : Nat :=
  b0 + 256 * b1 + 65536 * b2 + 16777216 * b3

/-- `load_chunk_blocks` (chunked_cache.rs, lines 119-142): walk the
decompressed chunk buffer; while at least 4 bytes remain, read a
little-endian `u32` block length, fail if the declared block extends
beyond the buffer, otherwise take that many bytes as one block.  The
Rust loop keeps an offset into one buffer; the embedding recurses on
the remaining suffix, which is the same computation. -/
def load_chunk_blocks : List Nat → Except String (List (List Nat))
  | b0 :: b1 :: b2 :: b3 :: rest =>
    let block_len := frameLen b0 b1 b2 b3
    if rest.length < block_len then
      .error "Block extends beyond chunk data"
    else
      (load_chunk_blocks (rest.drop block_len)).map
        (fun blocks => rest.take block_len :: blocks)
  | _ => .ok []
termination_by data => data.length
decreasing_by
  simp only [List.length_drop, List.length_cons]
  omega

/-- The streaming block loop of `load_chunked_cache` (chunked_cache.rs,
lines 209-240): repeatedly `read_exact` a 4-byte little-endian length
frame (an `UnexpectedEof` on this read — fewer than 4 bytes remaining —
breaks out of the loop successfully), reject a declared length above
`10 * 1024 * 1024` or below `88` bytes with an error, then `read_exact`
exactly that many bytes as the block body (an `UnexpectedEof` here —
fewer bytes remaining than declared — propagates as an error). -/
def stream_chunk_blocks : List Nat → Except String (List (List Nat))
  | b0 :: b1 :: b2 :: b3 :: rest =>
    let block_len := frameLen b0 b1 b2 b3
    if block_len > 10 * 1024 * 1024 ∨ block_len < 88 then
      .error ("Invalid block size in chunk: " ++ toString block_len ++ " bytes")
    else if rest.length < block_len then
      .error "failed to fill whole buffer"
    else
      (stream_chunk_blocks (rest.drop block_len)).map
        (fun blocks => rest.take block_len :: blocks)
  | _ => .ok []
termination_by data => data.length
decreasing_by
  simp only [List.length_drop, List.length_cons]
  omega

/-- Index arithmetic of `load_chunked_cache` (chunked_cache.rs, lines
146-261) for a well-formed cache: `blocks` is the full ordered list of
block buffers of the cache (so chunk file `j` decompresses to blocks
`j * blocks_per_chunk ..` of it, `blocks_per_chunk` many), every chunk
file exists, and every framed length is within bounds, as the claim
about this function presupposes.  The function computes `start_idx`,
`end_idx`, the chunk range to stream, concatenates the streamed chunks
into `all_blocks`, then filters to the requested range with
`.skip(start_idx).take(end_idx - start_idx)`. -/
def load_chunked_cache (blocks : List (List Nat))
    (total_blocks blocks_per_chunk num_chunks : Nat)
    (start_height : Option Nat) (max_blocks : Option Nat) : List (List Nat) :=
  let start_idx := start_height.getD 0
  let end_idx := match max_blocks with
    | some max => min (start_idx + max) total_blocks
    | none => total_blocks
  let start_chunk := start_idx / blocks_per_chunk
  let end_chunk := (end_idx - 1) / blocks_per_chunk
  let all_blocks :=
    (List.range' start_chunk (min end_chunk (num_chunks - 1) + 1 - start_chunk)).flatMap
      (fun chunk_num => (blocks.drop (chunk_num * blocks_per_chunk)).take blocks_per_chunk)
  if start_idx > 0 ∨ end_idx < all_blocks.length then
    (all_blocks.drop start_idx).take (end_idx - start_idx)
  else
    all_blocks

example : load_chunk_blocks [2, 0, 0, 0, 7, 8] = .ok [[7, 8]] := by
  simp [load_chunk_blocks, frameLen, Except.map]

example : stream_chunk_blocks [1, 0] = .ok [] := by
  simp [stream_chunk_blocks]

/-! ## Parallel differential harness (`src/parallel_differential.rs`) -/

/-- Local validation verdict (`crate::differential::ValidationResult`,
as pattern-matched throughout parallel_differential.rs): `Valid` or
`Invalid` with a reason string. -/
inductive ValidationResult where
  | Valid : ValidationResult
  | Invalid : String → ValidationResult
deriving Repr, DecidableEq

/-- Reference-node verdict (`crate::differential::CoreValidationResult`,
as pattern-matched throughout parallel_differential.rs). -/
inductive CoreValidationResult where
  | Valid : CoreValidationResult
  | Invalid : String → CoreValidationResult
deriving Repr, DecidableEq

/-- `BlockDataSource` (parallel_differential.rs, lines 16-25).  The
RPC-backed variants carry an oracle abstracting the reference-node
query made in `process_block` (hash the 80-byte header, ask the node
for the block): `q bytes = true` models a successful `getblock` /
`get_block_hex` call for the block with those bytes.  `SharedCache`
carries the optional RPC client as in the source. -/
inductive BlockDataSource where
  | DirectFile : BlockDataSource
  | SharedCache : Option (List Nat → Bool) → BlockDataSource
  | Rpc : (List Nat → Bool) → BlockDataSource
  | Start9Rpc : (List Nat → Bool) → BlockDataSource

/-- `BlockChunk` (parallel_differential.rs, lines 49-55), generic over
the UTXO-set type `U` ( `blvm_consensus::UtxoSet` is external to this
repository). -/
structure BlockChunk (U : Type) where
  start_height : Nat
  end_height : Nat
  checkpoint_utxo : Option U
  skip_validation : Bool
deriving Repr, DecidableEq

/-- `ChunkResult` (parallel_differential.rs, lines 58-66).  The
`duration_secs : f64` field is wall-clock floating point and is not
modelled; every other field is. -/
structure ChunkResult where
  start_height : Nat
  end_height : Nat
  tested : Nat
  matched : Nat
  divergences : List (Nat × String × String)
deriving Repr, DecidableEq

/-- The reference ("Core") verdict computed by `process_block`
(parallel_differential.rs, lines 607-667): blocks from a `DirectFile`
source are assumed valid; for `SharedCache(_, Some(client))`, `Rpc` and
`Start9Rpc` the block hash is queried when at least 80 header bytes are
present; the remaining `_` arm (`SharedCache(_, None)`) assumes valid. -/
def coreVerdict (src : BlockDataSource) (block_bytes : List Nat) : CoreValidationResult :=
  match src with
  | .DirectFile => .Valid
  | .SharedCache (some q) =>
    if block_bytes.length ≥ 80 then
      if q block_bytes then .Valid else .Invalid "Block not in chain"
    else .Invalid "Block too short"
  | .Rpc q =>
    if block_bytes.length ≥ 80 then
      if q block_bytes then .Valid else .Invalid "Block not in chain"
    else .Invalid "Block too short"
  | .Start9Rpc q =>
    if block_bytes.length ≥ 80 then
      if q block_bytes then .Valid else .Invalid "Block not in chain"
    else .Invalid "Block too short"
  | .SharedCache none => .Valid

/-- `process_block` (parallel_differential.rs, lines 566-670), generic
over the parsed-block type `B` and UTXO-set type `U`.
`deser` abstracts `deserialize_block_with_witnesses` and `connect`
abstracts `blvm_consensus::block::connect_block` (both external to this
repository); `connect` returns `Except` because `connect_block` returns
`Result<(ValidationResult, UtxoSet, UndoLog), _>` (the undo log is
unused here and omitted).  On a deserialization error the function
bails; on `Ok` from `connect` the working UTXO set is replaced with the
returned set (`*utxo_set = new_utxo_set`) whatever the verdict; on
`Err(e)` from `connect` the verdict is `Invalid` and the UTXO set is
left untouched.  The triple returned models
`(blvm_result, core_result)` plus the final `&mut` UTXO set. -/
def process_block {B U : Type} (deser : List Nat → Except String B)
    (connect : B → U → Nat → Except String (ValidationResult × U))
    (src : BlockDataSource) (block_bytes : List Nat) (height : Nat) (utxo_set : U) :
    Except String (ValidationResult × CoreValidationResult × U) :=
  match deser block_bytes with
  | .error e =>
    .error ("Failed to deserialize block at height " ++ toString height ++ ": " ++ e)
  | .ok block =>
    let step : ValidationResult × U :=
      match connect block utxo_set height with
      | .ok (result, new_utxo_set) => (result, new_utxo_set)
      | .error e => (.Invalid e, utxo_set)
    .ok (step.1, coreVerdict src block_bytes, step.2)

/-- Modelled from the spec: `connect_block` lives in the external
`blvm_consensus` crate, not in this repository's sources.  Spec §4.7:
"On any failure the working UTXO set and undo log are discarded and the
result is `Invalid(reason)`" — a connect function reporting `Invalid`
hands back the input UTXO set unchanged. -/
def ConnectDiscardsOnInvalid {B U : Type}
    (connect : B → U → Nat → Except String (ValidationResult × U)) : Prop :=
  ∀ b u h msg u', connect b u h = .ok (.Invalid msg, u') → u' = u

/-- Sequential block application, the specification-side accumulator
for the checkpoint claims: starting from UTXO set `u`, fetch,
deserialize and connect the `n` blocks at heights `h, h+1, …, h+n-1`,
succeeding only if every one of them fetches, parses and is `Valid`. -/
def applyBlocks {B U : Type} (getBlock : Nat → Except String (List Nat))
    (deser : List Nat → Except String B)
    (connect : B → U → Nat → Except String (ValidationResult × U)) :
    U → Nat → Nat → Option U
  | u, _, 0 => some u
  | u, h, n + 1 =>
    match getBlock h >>= deser with
    | .error _ => none
    | .ok b =>
      match connect b u h with
      | .ok (.Valid, nu) => applyBlocks getBlock deser connect nu (h + 1) n
      | _ => none

/-- The sequential loop of `generate_checkpoints`
(parallel_differential.rs, lines 477-558; the DirectFile branch at
lines 224-473 runs the same per-height logic — the only difference,
skipping blocks that fail to deserialize instead of erroring, is
excluded by the premises of every claim about this function).  Per
height: fetch and deserialize the block, `connect_block` it against the
accumulated UTXO set, bail on an `Err` or an `Invalid` verdict,
otherwise adopt the new UTXO set; then, if
`height == next_checkpoint - 1 || height == actual_end`, push
`(height, utxo_set.clone())` and advance `next_checkpoint` by
`chunk_size`.  `fuel` enumerates the heights `height .. actual_end`. -/
def genLoop {B U : Type} (getBlock : Nat → Except String (List Nat))
    (deser : List Nat → Except String B)
    (connect : B → U → Nat → Except String (ValidationResult × U))
    (chunk_size actual_end : Nat) :
    Nat → Nat → Nat → U → List (Nat × U) → Except String (List (Nat × U))
  | 0, _, _, _, checkpoints => .ok checkpoints.reverse
  | fuel + 1, height, next_checkpoint, utxo_set, checkpoints =>
    match getBlock height >>= deser with
    | .error e => .error e
    | .ok block =>
      match connect block utxo_set height with
      | .error e => .error e
      | .ok (.Invalid msg, _) =>
        .error ("Block " ++ toString height ++
          " failed validation during checkpoint generation: " ++ msg)
      | .ok (.Valid, new_utxo_set) =>
        if height = next_checkpoint - 1 ∨ height = actual_end then
          genLoop getBlock deser connect chunk_size actual_end fuel (height + 1)
            (next_checkpoint + chunk_size) new_utxo_set ((height, new_utxo_set) :: checkpoints)
        else
          genLoop getBlock deser connect chunk_size actual_end fuel (height + 1)
            next_checkpoint new_utxo_set checkpoints

/-- `generate_checkpoints` (parallel_differential.rs, lines 179-563).
`chain_height` is the value produced by the source's
`getblockcount`-style query (for sources without one the code
substitutes `end_height`, which callers model by passing
`chain_height ≥ end_height`); `actual_end = min end_height
chain_height` as at lines 200-210.  `u0` stands for the fresh
`UtxoSet::new()` the code starts from — the UTXO-set type is abstract
here, so the empty set is a parameter. -/
def generate_checkpoints {B U : Type} (getBlock : Nat → Except String (List Nat))
    (deser : List Nat → Except String B)
    (connect : B → U → Nat → Except String (ValidationResult × U))
    (start_height end_height chunk_size chain_height : Nat) (u0 : U) :
    Except String (List (Nat × U)) :=
  let actual_end := min end_height chain_height
  genLoop getBlock deser connect chunk_size actual_end
    (actual_end + 1 - start_height) start_height (start_height + chunk_size) u0 []

/-- The string rendering of the local verdict used when a divergence is
recorded (parallel_differential.rs, lines 732-735 and 799-802):
`"Valid"` or `"Invalid(reason)"`. -/
def renderLocal : ValidationResult → String
  | .Valid => "Valid"
  | .Invalid msg => "Invalid(" ++ msg ++ ")"

/-- The string rendering of the reference verdict used when a
divergence is recorded (parallel_differential.rs, lines 736-739 and
803-806). -/
def renderCore : CoreValidationResult → String
  | .Valid => "Valid"
  | .Invalid msg => "Invalid(" ++ msg ++ ")"

/-- The verdict comparison of `validate_chunk`
(parallel_differential.rs, lines 721-728 and 788-795): the Rust
`matches!` accepts `(Valid, Valid)` and `(Invalid(_), Invalid(_))`. -/
def verdictsMatch : ValidationResult → CoreValidationResult → Bool
  | .Valid, .Valid => true
  | .Invalid _, .Invalid _ => true
  | _, _ => false

/-- The divergence entry recorded for one block when the verdicts do
not match (parallel_differential.rs, lines 730-741):
`(height, blvm_str, core_str)` with both verdicts rendered. -/
def divergenceEntry (e : Nat × ValidationResult × CoreValidationResult) :
    Option (Nat × String × String) :=
  if verdictsMatch e.2.1 e.2.2 then none
  else some (e.1, renderLocal e.2.1, renderCore e.2.2)

/-- The per-height loop of `validate_chunk` (parallel_differential.rs,
lines 700-841; the DirectFile and cache/RPC branches run the same
bookkeeping): fetch the block, run `process_block` against the working
UTXO set, then either count it as matched or append a rendered
divergence triple, and count it as tested.  `fuel` enumerates the
heights `height .. actual_end`. -/
def validateLoop {B U : Type} (getBlock : Nat → Except String (List Nat))
    (deser : List Nat → Except String B)
    (connect : B → U → Nat → Except String (ValidationResult × U))
    (src : BlockDataSource) :
    Nat → Nat → U → Nat → Nat → List (Nat × String × String) →
    Except String (Nat × Nat × List (Nat × String × String))
  | 0, _, _, tested, matched, divergences => .ok (tested, matched, divergences.reverse)
  | fuel + 1, height, utxo_set, tested, matched, divergences =>
    match getBlock height with
    | .error e => .error e
    | .ok block_bytes =>
      match process_block deser connect src block_bytes height utxo_set with
      | .error e => .error e
      | .ok (blvm_result, core_result, new_utxo) =>
        let m := verdictsMatch blvm_result core_result
        validateLoop getBlock deser connect src fuel (height + 1) new_utxo (tested + 1)
          (if m then matched + 1 else matched)
          (if m then divergences
           else (height, renderLocal blvm_result, renderCore core_result) :: divergences)

/-- `validate_chunk` (parallel_differential.rs, lines 675-853).
`chain_height` is the worker's own chain-height query (sources without
one substitute `chunk.end_height`; callers model that by passing
`chain_height ≥ chunk.end_height`); `actual_end = min chunk.end_height
chain_height` as at lines 690-697.  The working UTXO set starts from
`chunk.checkpoint_utxo.unwrap_or_else(UtxoSet::new)`, with `emptyU`
standing for `UtxoSet::new()`. -/
def validate_chunk {B U : Type} (getBlock : Nat → Except String (List Nat))
    (deser : List Nat → Except String B)
    (connect : B → U → Nat → Except String (ValidationResult × U))
    (src : BlockDataSource) (chunk : BlockChunk U) (emptyU : U) (chain_height : Nat) :
    Except String ChunkResult :=
  let utxo0 := chunk.checkpoint_utxo.getD emptyU
  let actual_end := min chunk.end_height chain_height
  (validateLoop getBlock deser connect src
      (actual_end + 1 - chunk.start_height) chunk.start_height utxo0 0 0 []).map
    (fun r =>
      { start_height := chunk.start_height, end_height := actual_end,
        tested := r.1, matched := r.2.1, divergences := r.2.2 })

/-- The per-height trace of a chunk run: the `(height, local verdict,
reference verdict)` triples `validate_chunk`'s loop produces, in
order.  This is the reference recursion the loop is proved against. -/
def runTrace {B U : Type} (getBlock : Nat → Except String (List Nat))
    (deser : List Nat → Except String B)
    (connect : B → U → Nat → Except String (ValidationResult × U))
    (src : BlockDataSource) :
    Nat → Nat → U → Except String (List (Nat × ValidationResult × CoreValidationResult))
  | 0, _, _ => .ok []
  | fuel + 1, height, utxo_set =>
    match getBlock height with
    | .error e => .error e
    | .ok block_bytes =>
      match process_block deser connect src block_bytes height utxo_set with
      | .error e => .error e
      | .ok (blvm_result, core_result, new_utxo) =>
        (runTrace getBlock deser connect src fuel (height + 1) new_utxo).map
          (fun tr => (height, blvm_result, core_result) :: tr)

/-- The chunk-construction loop of `run_parallel_differential`
(parallel_differential.rs, lines 893-922): starting from
`current_start = start_height`, `checkpoint_idx = 0`, each iteration
with `current_start ≤ actual_end` emits a `BlockChunk` ending at
`min (current_start + chunk_size - 1) actual_end`, whose checkpoint
UTXO is the previous checkpoint (`checkpoints[checkpoint_idx - 1]`)
when checkpoints are in use and `checkpoint_idx > 0`, an empty set for
the first chunk, and `None` otherwise; then advances and bumps
`checkpoint_idx` while another chunk and another checkpoint remain.
`fuel` bounds the iteration count (each iteration advances
`current_start` by at least 1 when `chunk_size ≥ 1`). -/
def mkChunksGo {U : Type} (checkpoints : List (Nat × U)) (use_checkpoints : Bool)
    (start_height actual_end chunk_size : Nat) (emptyU : U) :
    Nat → Nat → Nat → List (BlockChunk U)
  | 0, _, _ => []
  | fuel + 1, current_start, checkpoint_idx =>
    if current_start ≤ actual_end then
      let chunk_end := min (current_start + chunk_size - 1) actual_end
      let checkpoint_utxo : Option U :=
        if use_checkpoints = true ∧ checkpoint_idx > 0 then
          (checkpoints.get? (checkpoint_idx - 1)).map Prod.snd
        else if current_start = start_height then
          some emptyU
        else
          none
      let next_start := chunk_end + 1
      { start_height := current_start, end_height := chunk_end,
        checkpoint_utxo := checkpoint_utxo, skip_validation := !use_checkpoints } ::
        mkChunksGo checkpoints use_checkpoints start_height actual_end chunk_size emptyU
          fuel next_start
          (if next_start ≤ actual_end ∧ checkpoint_idx < checkpoints.length then
            checkpoint_idx + 1
          else checkpoint_idx)
    else []

/-- The chunk list `run_parallel_differential` builds
(parallel_differential.rs, lines 893-922), with enough fuel for the
whole height range. -/
def mkChunks {U : Type} (checkpoints : List (Nat × U)) (use_checkpoints : Bool)
    (start_height actual_end chunk_size : Nat) (emptyU : U) : List (BlockChunk U) :=
  mkChunksGo checkpoints use_checkpoints start_height actual_end chunk_size emptyU
    (actual_end + 1 - start_height) start_height 0

/-- The checkpointed phase of `run_parallel_differential`
(parallel_differential.rs, lines 858-922) up to and including chunk
construction, with `use_checkpoints = true`: compute
`actual_end = min end_height chain_height`, run phase A
(`generate_checkpoints` over `[start_height, actual_end]`), then build
the chunk list that phase B dispatches. -/
def run_parallel_chunks {B U : Type} (getBlock : Nat → Except String (List Nat))
    (deser : List Nat → Except String B)
    (connect : B → U → Nat → Except String (ValidationResult × U))
    (start_height end_height chunk_size chain_height : Nat) (emptyU : U) :
    Except String (List (BlockChunk U)) :=
  let actual_end := min end_height chain_height
  (generate_checkpoints getBlock deser connect start_height actual_end chunk_size
      chain_height emptyU).map
    (fun checkpoints => mkChunks checkpoints true start_height actual_end chunk_size emptyU)

/-- `run_parallel_differential` (parallel_differential.rs, lines
858-1033) with `use_checkpoints = true`, cooperative model: phase A
generates checkpoints, the chunk list is built, each chunk is run
through `validate_chunk` and the successful `ChunkResult`s are
collected in dispatch order (a failed chunk is logged and skipped,
lines 1001-1007).  The returned list is the harness's entire result:
`ChunkResult` carries no UTXO data, and no boundary comparison between
a worker's final UTXO set and the next chunk's checkpoint exists
anywhere in the source. -/
def run_parallel_differential {B U : Type} (getBlock : Nat → Except String (List Nat))
    (deser : List Nat → Except String B)
    (connect : B → U → Nat → Except String (ValidationResult × U))
    (src : BlockDataSource)
    (start_height end_height chunk_size chain_height : Nat) (emptyU : U) :
    Except String (List ChunkResult) :=
  let actual_end := min end_height chain_height
  match generate_checkpoints getBlock deser connect start_height actual_end chunk_size
      chain_height emptyU with
  | .error e => .error e
  | .ok checkpoints =>
    let chunks := mkChunks checkpoints true start_height actual_end chunk_size emptyU
    .ok (chunks.filterMap
      (fun chunk =>
        (validate_chunk getBlock deser connect src chunk emptyU chain_height).toOption))

/-! ### Concrete instances used by the witnesses -/

/-- A block source for witnesses: every height yields an 88-byte
buffer. -/
def gbC : Nat → Except String (List Nat) := fun h => .ok (List.replicate 88 h)

/-- A deserializer for witnesses: every buffer parses (to `Unit`). -/
def dsC : List Nat → Except String Unit := fun _ => .ok ()

/-- A connect function for witnesses over `U := Nat` (the UTXO set
modelled as a counter): every block is `Valid` and grows the set. -/
def cnC : Unit → Nat → Nat → Except String (ValidationResult × Nat) :=
  fun _ u _ => .ok (.Valid, u + 1)

/-- A connect function for witnesses that rejects every block and hands
the input UTXO set back unchanged. -/
def cnBad : Unit → Nat → Nat → Except String (ValidationResult × Nat) :=
  fun _ u _ => .ok (.Invalid "bad", u)

/-- A connect function for witnesses that rejects exactly the block at
height 1 (handing the UTXO set back unchanged there) and accepts every
other height. -/
def cnMix : Unit → Nat → Nat → Except String (ValidationResult × Nat) :=
  fun _ u h => if h = 1 then .ok (.Invalid "bad", u) else .ok (.Valid, u + 1)

example :
    generate_checkpoints gbC dsC cnC 0 5 2 5 0 = .ok [(1, 2), (3, 4), (5, 6)] := rfl

example :
    run_parallel_chunks gbC dsC cnC 0 3 2 3 0 =
      .ok [⟨0, 1, some 0, false⟩, ⟨2, 3, some 2, false⟩] := rfl

example :
    validate_chunk gbC dsC cnMix .DirectFile ⟨0, 1, some 0, false⟩ 0 1 =
      .ok ⟨0, 1, 2, 1, [(1, "Invalid(bad)", "Valid")]⟩ := rfl

/-! ## Claims about the chunked cache reader -/

/-- C4: in the streaming block loop of `load_chunked_cache`, a decoded
4-byte little-endian length frame with value `L < 88` or
`L > 10,485,760` makes the loader return an error, yielding neither
that block nor any subsequent block of the chunk; a value with
`88 ≤ L ≤ 10,485,760` makes it read exactly `L` bytes as the block
body and yield that body unmodified ahead of the rest of the stream. -/
theorem stream_chunk_blocks_frame_spec (b0 b1 b2 b3 : Nat) (rest : List Nat) :
    ((frameLen b0 b1 b2 b3 < 88 ∨ frameLen b0 b1 b2 b3 > 10485760) →
      ∃ msg, stream_chunk_blocks (b0 :: b1 :: b2 :: b3 :: rest) = .error msg) ∧
    (88 ≤ frameLen b0 b1 b2 b3 → frameLen b0 b1 b2 b3 ≤ 10485760 →
     frameLen b0 b1 b2 b3 ≤ rest.length →
      stream_chunk_blocks (b0 :: b1 :: b2 :: b3 :: rest) =
        (stream_chunk_blocks (rest.drop (frameLen b0 b1 b2 b3))).map
          (fun blocks => rest.take (frameLen b0 b1 b2 b3) :: blocks)) := by
  constructor
  · intro hbad
    simp only [stream_chunk_blocks]
    rw [if_pos (by omega :
      frameLen b0 b1 b2 b3 > 10 * 1024 * 1024 ∨ frameLen b0 b1 b2 b3 < 88)]
    exact ⟨_, rfl⟩
  · intro h88 hmax hlen
    simp only [stream_chunk_blocks]
    rw [if_neg (by omega :
        ¬(frameLen b0 b1 b2 b3 > 10 * 1024 * 1024 ∨ frameLen b0 b1 b2 b3 < 88)),
      if_neg (by omega : ¬rest.length < frameLen b0 b1 b2 b3)]

/-- Witness for C4 at concrete inputs: the frame `[0,0,0,0]` (length 0)
is rejected, and the frame `[88,0,0,0]` followed by an 88-byte body
yields that body. -/
theorem stream_chunk_blocks_frame_spec_witness :
    (∃ msg, stream_chunk_blocks [0, 0, 0, 0] = .error msg) ∧
    stream_chunk_blocks (88 :: 0 :: 0 :: 0 :: List.replicate 88 7) =
      (stream_chunk_blocks ((List.replicate 88 7).drop 88)).map
        (fun blocks => (List.replicate 88 7).take 88 :: blocks) :=
  ⟨(stream_chunk_blocks_frame_spec 0 0 0 0 []).1 (by decide),
   (stream_chunk_blocks_frame_spec 88 0 0 0 (List.replicate 88 7)).2
     (by decide) (by decide) (by simp [frameLen])⟩

/-- Counterexample to C5: the chunk byte stream `[1, 0]` is truncated —
it ends inside a 4-byte length frame — yet both `load_chunk_blocks` and
the streaming loop of `load_chunked_cache` return success (an empty
block list), not an error: trailing bytes that do not form a complete
length frame are silently ignored. -/
theorem chunk_truncated_frame_not_an_error :
    load_chunk_blocks [1, 0] = .ok [] ∧ stream_chunk_blocks [1, 0] = .ok [] :=
  ⟨by simp [load_chunk_blocks], by simp [stream_chunk_blocks]⟩

/-- C5 as amended: when the remaining stream begins with a complete
4-byte length frame that declares more bytes than remain, both
`load_chunk_blocks` and the streaming loop of `load_chunked_cache`
return an error and never yield the partial block; but when fewer than
4 bytes remain (a truncated length frame), both treat it as the end of
the stream and return successfully, silently ignoring those bytes. -/
theorem chunk_truncation_behaviour :
    (∀ b0 b1 b2 b3 (rest : List Nat), rest.length < frameLen b0 b1 b2 b3 →
      (∃ msg, load_chunk_blocks (b0 :: b1 :: b2 :: b3 :: rest) = .error msg) ∧
      (∃ msg, stream_chunk_blocks (b0 :: b1 :: b2 :: b3 :: rest) = .error msg)) ∧
    (∀ data : List Nat, data.length < 4 →
      load_chunk_blocks data = .ok [] ∧ stream_chunk_blocks data = .ok []) := by
  constructor
  · intro b0 b1 b2 b3 rest h
    constructor
    · simp only [load_chunk_blocks]
      rw [if_pos h]
      exact ⟨_, rfl⟩
    · simp only [stream_chunk_blocks]
      by_cases hb : frameLen b0 b1 b2 b3 > 10 * 1024 * 1024 ∨ frameLen b0 b1 b2 b3 < 88
      · rw [if_pos hb]
        exact ⟨_, rfl⟩
      · rw [if_neg hb, if_pos h]
        exact ⟨_, rfl⟩
  · intro data h
    rcases data with _ | ⟨a, _ | ⟨b, _ | ⟨c, _ | ⟨d, tl⟩⟩⟩⟩
    · exact ⟨by simp [load_chunk_blocks], by simp [stream_chunk_blocks]⟩
    · exact ⟨by simp [load_chunk_blocks], by simp [stream_chunk_blocks]⟩
    · exact ⟨by simp [load_chunk_blocks], by simp [stream_chunk_blocks]⟩
    · exact ⟨by simp [load_chunk_blocks], by simp [stream_chunk_blocks]⟩
    · simp at h
      omega

/-- Witness for the amended C5 at concrete inputs: the stream
`[1,0,0,0]` declares a 1-byte body with no bytes remaining and both
functions fail; the 1-byte stream `[9]` is treated as end-of-stream by
both. -/
theorem chunk_truncation_behaviour_witness :
    ((∃ msg, load_chunk_blocks [1, 0, 0, 0] = .error msg) ∧
     (∃ msg, stream_chunk_blocks [1, 0, 0, 0] = .error msg)) ∧
    (load_chunk_blocks [9] = .ok [] ∧ stream_chunk_blocks [9] = .ok []) :=
  ⟨chunk_truncation_behaviour.1 1 0 0 0 [] (by decide),
   chunk_truncation_behaviour.2 [9] (by decide)⟩

/-- C6 fails on the code (code bug): a well-formed cache with
`blocks_per_chunk = 2` and `total_blocks = 4` holding the four blocks
`[0]`, `[1]`, `[2]`, `[3]` at heights 0..3, asked for
`start_height = Some 2`, `max_blocks = Some 2`, should return the
blocks at heights 2 and 3 (`[[2],[3]]`), but returns `[]`: the filter
step skips `start_idx = 2` entries of a list that already begins at
height `start_chunk * blocks_per_chunk = 2`. -/
theorem load_chunked_cache_skips_past_range :
    load_chunked_cache [[0], [1], [2], [3]] 4 2 2 (some 2) (some 2) = [] ∧
    ([[2], [3]] : List (List Nat)) ≠ [] := by
  constructor
  · rfl
  · decide

/-! ## The `generate_checkpoints` loop versus its specification -/

/-- Specification-side recursion for the checkpoint pass: identical
stepping to `genLoop`, but the push condition is expressed locally —
record `(h, new utxo)` exactly when `(h + 1 - start_height)` is a
positive multiple of `chunk_size` (i.e. `h = start_height +
k·chunk_size - 1` for some `k ≥ 1`) or `h = actual_end`. -/
def genSpec {B U : Type} (getBlock : Nat → Except String (List Nat))
    (deser : List Nat → Except String B)
    (connect : B → U → Nat → Except String (ValidationResult × U))
    (start_height chunk_size actual_end : Nat) :
    Nat → Nat → U → Except String (List (Nat × U))
  | 0, _, _ => .ok []
  | fuel + 1, height, utxo =>
    match getBlock height >>= deser with
    | .error e => .error e
    | .ok block =>
      match connect block utxo height with
      | .error e => .error e
      | .ok (.Invalid msg, _) =>
        .error ("Block " ++ toString height ++
          " failed validation during checkpoint generation: " ++ msg)
      | .ok (.Valid, new_utxo) =>
        if (height + 1 - start_height) % chunk_size = 0 ∨ height = actual_end then
          (genSpec getBlock deser connect start_height chunk_size actual_end
              fuel (height + 1) new_utxo).map
            (fun l => (height, new_utxo) :: l)
        else
          genSpec getBlock deser connect start_height chunk_size actual_end
            fuel (height + 1) new_utxo

/-- The loop's checkpoint test `height = next_checkpoint - 1`, under
the loop invariant `next_checkpoint = s + ((h - s)/c + 1)·c`, is the
local boundary condition `(h + 1 - s) % c = 0`. -/
theorem checkpoint_cond_iff (s c h : Nat) (hc : 1 ≤ c) (hs : s ≤ h) :
    (h = s + ((h - s) / c + 1) * c - 1) ↔ (h + 1 - s) % c = 0 := by
  obtain ⟨q, hq⟩ : ∃ q, (h - s) / c = q := ⟨_, rfl⟩
  obtain ⟨r, hr⟩ : ∃ r, (h - s) % c = r := ⟨_, rfl⟩
  have hrlt : r < c := by rw [← hr]; exact Nat.mod_lt _ (by omega)
  obtain ⟨t, ht⟩ : ∃ t, c * q = t := ⟨_, rfl⟩
  have hdm : t + r = h - s := by
    rw [← ht, ← hq, ← hr]; exact Nat.div_add_mod _ _
  rw [hq]
  have hexp : (q + 1) * c = t + c := by rw [← ht]; ring
  have hm2 : (h + 1 - s) % c = (r + 1) % c := by
    have h1 : h + 1 - s = r + 1 + c * q := by rw [ht]; omega
    rw [h1, Nat.add_mul_mod_self_left]
  rw [hm2, hexp]
  by_cases hrc : r + 1 = c
  · exact iff_of_true (by omega) (by rw [hrc]; exact Nat.mod_self c)
  · refine iff_of_false (by omega) ?_
    rw [Nat.mod_eq_of_lt (by omega)]
    omega

/-- Crossing a chunk boundary advances the chunk index. -/
theorem boundary_div_succ (s c h : Nat) (hc : 1 ≤ c) (hs : s ≤ h)
    (hb : (h + 1 - s) % c = 0) : (h + 1 - s) / c = (h - s) / c + 1 := by
  obtain ⟨q, hq⟩ : ∃ q, (h - s) / c = q := ⟨_, rfl⟩
  obtain ⟨r, hr⟩ : ∃ r, (h - s) % c = r := ⟨_, rfl⟩
  have hrlt : r < c := by rw [← hr]; exact Nat.mod_lt _ (by omega)
  obtain ⟨t, ht⟩ : ∃ t, c * q = t := ⟨_, rfl⟩
  have hdm : t + r = h - s := by
    rw [← ht, ← hq, ← hr]; exact Nat.div_add_mod _ _
  have hm2 : (h + 1 - s) % c = (r + 1) % c := by
    have h1 : h + 1 - s = r + 1 + c * q := by rw [ht]; omega
    rw [h1, Nat.add_mul_mod_self_left]
  have hrc : r + 1 = c := by
    rw [hm2] at hb
    rcases Nat.lt_or_ge (r + 1) c with hlt | hge
    · rw [Nat.mod_eq_of_lt hlt] at hb; omega
    · omega
  have h2 : h + 1 - s = c * (q + 1) := by
    have : c * (q + 1) = t + c := by rw [← ht]; ring
    omega
  rw [hq, h2, Nat.mul_div_cancel_left _ (by omega : 0 < c)]

/-- Inside a chunk the chunk index is unchanged. -/
theorem nonboundary_div_eq (s c h : Nat) (hc : 1 ≤ c) (hs : s ≤ h)
    (hb : ¬(h + 1 - s) % c = 0) : (h + 1 - s) / c = (h - s) / c := by
  obtain ⟨q, hq⟩ : ∃ q, (h - s) / c = q := ⟨_, rfl⟩
  obtain ⟨r, hr⟩ : ∃ r, (h - s) % c = r := ⟨_, rfl⟩
  have hrlt : r < c := by rw [← hr]; exact Nat.mod_lt _ (by omega)
  obtain ⟨t, ht⟩ : ∃ t, c * q = t := ⟨_, rfl⟩
  have hdm : t + r = h - s := by
    rw [← ht, ← hq, ← hr]; exact Nat.div_add_mod _ _
  have hm2 : (h + 1 - s) % c = (r + 1) % c := by
    have h1 : h + 1 - s = r + 1 + c * q := by rw [ht]; omega
    rw [h1, Nat.add_mul_mod_self_left]
  have hrc : r + 1 < c := by
    rcases Nat.lt_or_ge (r + 1) c with hlt | hge
    · exact hlt
    · exfalso
      have : r + 1 = c := by omega
      rw [hm2, this, Nat.mod_self] at hb
      exact hb rfl
  have h1 : h + 1 - s = c * q + (r + 1) := by omega
  rw [hq, h1, Nat.mul_add_div (by omega : 0 < c), Nat.div_eq_of_lt hrc]
  omega

/-- One successful `Valid` step prefixes an `applyBlocks` run. -/
theorem applyBlocks_cons_lift {B U : Type} (getBlock : Nat → Except String (List Nat))
    (deser : List Nat → Except String B)
    (connect : B → U → Nat → Except String (ValidationResult × U))
    (u new_utxo : U) (h m : Nat) (b : B)
    (hgd : getBlock h >>= deser = .ok b)
    (hc2 : connect b u h = .ok (.Valid, new_utxo)) :
    applyBlocks getBlock deser connect u h (m + 1) =
      applyBlocks getBlock deser connect new_utxo (h + 1) m := by
  simp [applyBlocks, hgd, hc2]

/-- The stateful checkpoint loop agrees with the specification-side
recursion, under its `next_checkpoint` invariant. -/
theorem genLoop_eq_genSpec {B U : Type} (getBlock : Nat → Except String (List Nat))
    (deser : List Nat → Except String B)
    (connect : B → U → Nat → Except String (ValidationResult × U))
    (s c aEnd : Nat) (hc : 1 ≤ c) (fuel : Nat) :
    ∀ (h next : Nat) (u : U) (acc : List (Nat × U)),
      s ≤ h → fuel ≤ aEnd + 1 - h → next = s + ((h - s) / c + 1) * c →
      genLoop getBlock deser connect c aEnd fuel h next u acc =
        (genSpec getBlock deser connect s c aEnd fuel h u).map
          (fun l => acc.reverse ++ l) := by
  induction fuel with
  | zero =>
    intro h next u acc hs hfuel hnext
    simp [genLoop, genSpec, Except.map]
  | succ n ih =>
    intro h next u acc hs hfuel hnext
    cases hgd : getBlock h >>= deser with
    | error e => simp [genLoop, genSpec, hgd, Except.map]
    | ok block =>
      cases hc2 : connect block u h with
      | error e => simp [genLoop, genSpec, hgd, hc2, Except.map]
      | ok p =>
        obtain ⟨r, new_utxo⟩ := p
        cases r with
        | Invalid msg => simp [genLoop, genSpec, hgd, hc2, Except.map]
        | Valid =>
          simp only [genLoop, genSpec, hgd, hc2]
          have hiff := checkpoint_cond_iff s c h hc hs
          by_cases hb : (h + 1 - s) % c = 0
          · have hL : h = next - 1 := by rw [hnext]; exact hiff.mpr hb
            rw [if_pos (Or.inl hL), if_pos (Or.inl hb)]
            rw [ih (h + 1) (next + c) new_utxo ((h, new_utxo) :: acc)
              (by omega) (by omega)
              (by
                rw [hnext, boundary_div_succ s c h hc hs hb]
                ring)]
            cases genSpec getBlock deser connect s c aEnd n (h + 1) new_utxo <;>
              simp [Except.map]
          · by_cases hEnd : h = aEnd
            · have hn : n = 0 := by omega
              subst hn
              rw [if_pos (Or.inr hEnd), if_pos (Or.inr hEnd)]
              simp [genLoop, genSpec, Except.map]
            · have hnotL : ¬(h = next - 1 ∨ h = aEnd) := by
                rintro (h1 | h2)
                · exact hb (hiff.mp (by rw [hnext] at h1; exact h1))
                · exact hEnd h2
              rw [if_neg hnotL, if_neg (by tauto : ¬((h + 1 - s) % c = 0 ∨ h = aEnd))]
              exact ih (h + 1) next new_utxo acc (by omega) (by omega)
                (by rw [nonboundary_div_eq s c h hc hs hb]; exact hnext)

/-- A successful specification-side run records exactly the boundary
heights (and `actual_end`) of its range, each paired with the UTXO set
reached immediately after applying the block at that height. -/
theorem genSpec_ok {B U : Type} (getBlock : Nat → Except String (List Nat))
    (deser : List Nat → Except String B)
    (connect : B → U → Nat → Except String (ValidationResult × U))
    (s c aEnd : Nat) (fuel : Nat) :
    ∀ (h : Nat) (u : U) l,
      genSpec getBlock deser connect s c aEnd fuel h u = .ok l →
      l.map Prod.fst = (List.range' h fuel).filter
        (fun x => decide ((x + 1 - s) % c = 0 ∨ x = aEnd)) ∧
      ∀ p ∈ l, applyBlocks getBlock deser connect u h (p.1 + 1 - h) = some p.2 := by
  induction fuel with
  | zero =>
    intro h u l hl
    simp only [genSpec, Except.ok.injEq] at hl
    subst hl
    simp
  | succ n ih =>
    intro h u l hl
    cases hgd : getBlock h >>= deser with
    | error e => rw [genSpec, hgd] at hl; exact absurd hl (by simp)
    | ok b =>
      cases hc2 : connect b u h with
      | error e =>
        simp only [genSpec, hgd, hc2] at hl
        exact absurd hl (by simp)
      | ok p =>
        obtain ⟨r, new_utxo⟩ := p
        cases r with
        | Invalid msg =>
          simp only [genSpec, hgd, hc2] at hl
          exact absurd hl (by simp)
        | Valid =>
          simp only [genSpec, hgd, hc2] at hl
          have hlift : ∀ p ∈ l, h + 1 ≤ p.1 →
              applyBlocks getBlock deser connect new_utxo (h + 1) (p.1 + 1 - (h + 1)) =
                some p.2 →
              applyBlocks getBlock deser connect u h (p.1 + 1 - h) = some p.2 := by
            intro p _ hge hrec
            obtain ⟨m, hm⟩ : ∃ m, p.1 + 1 - h = m + 1 := ⟨p.1 - h, by omega⟩
            rw [hm, applyBlocks_cons_lift getBlock deser connect u new_utxo h m b hgd hc2]
            have : m = p.1 + 1 - (h + 1) := by omega
            rw [this]
            exact hrec
          by_cases hcond : (h + 1 - s) % c = 0 ∨ h = aEnd
          · rw [if_pos hcond] at hl
            cases hrec : genSpec getBlock deser connect s c aEnd n (h + 1) new_utxo with
            | error e => rw [hrec] at hl; exact absurd hl (by simp [Except.map])
            | ok l' =>
              rw [hrec] at hl
              simp only [Except.map, Except.ok.injEq] at hl
              subst hl
              obtain ⟨ihfst, ihmem⟩ := ih (h + 1) new_utxo l' hrec
              have hge : ∀ p ∈ l', h + 1 ≤ p.1 := by
                intro p hp
                have hmm : p.1 ∈ List.map Prod.fst l' := List.mem_map_of_mem _ hp
                rw [ihfst] at hmm
                have := List.mem_range'_1.mp (List.mem_of_mem_filter hmm)
                omega
              constructor
              · rw [List.range'_succ, List.filter_cons]
                have hdec : decide ((h + 1 - s) % c = 0 ∨ h = aEnd) = true :=
                  decide_eq_true hcond
                rw [hdec]
                simp [ihfst]
              · intro p hp
                rcases List.mem_cons.mp hp with rfl | hp'
                · have h1 : h + 1 - h = 0 + 1 := by omega
                  rw [h1,
                    applyBlocks_cons_lift getBlock deser connect u new_utxo h 0 b hgd hc2]
                  rfl
                · exact hlift p (by simp [hp']) (hge p hp') (ihmem p hp')
          · rw [if_neg hcond] at hl
            obtain ⟨ihfst, ihmem⟩ := ih (h + 1) new_utxo l hl
            have hge : ∀ p ∈ l, h + 1 ≤ p.1 := by
              intro p hp
              have hmm : p.1 ∈ List.map Prod.fst l := List.mem_map_of_mem _ hp
              rw [ihfst] at hmm
              have := List.mem_range'_1.mp (List.mem_of_mem_filter hmm)
              omega
            constructor
            · rw [List.range'_succ, List.filter_cons]
              have hdec : decide ((h + 1 - s) % c = 0 ∨ h = aEnd) = false :=
                decide_eq_false hcond
              rw [hdec]
              simp [ihfst]
            · intro p hp
              exact hlift p hp (hge p hp) (ihmem p hp)

/-- A successful `generate_checkpoints` run records exactly the
boundary heights of `[start_height, actual_end]` plus `actual_end`,
each paired with the UTXO set reached immediately after applying the
block at that height. -/
theorem generate_checkpoints_ok {B U : Type} (getBlock : Nat → Except String (List Nat))
    (deser : List Nat → Except String B)
    (connect : B → U → Nat → Except String (ValidationResult × U))
    (s e c chain : Nat) (u0 : U) (cps : List (Nat × U)) (hc : 1 ≤ c)
    (hrun : generate_checkpoints getBlock deser connect s e c chain u0 = .ok cps) :
    cps.map Prod.fst = (List.range' s (min e chain + 1 - s)).filter
      (fun x => decide ((x + 1 - s) % c = 0 ∨ x = min e chain)) ∧
    ∀ p ∈ cps, applyBlocks getBlock deser connect u0 s (p.1 + 1 - s) = some p.2 := by
  simp only [generate_checkpoints] at hrun
  rw [genLoop_eq_genSpec getBlock deser connect s c (min e chain) hc
    (min e chain + 1 - s) s (s + c) u0 [] (le_refl s) (by omega)
    (by simp)] at hrun
  cases hspec : genSpec getBlock deser connect s c (min e chain)
      (min e chain + 1 - s) s u0 with
  | error e' => rw [hspec] at hrun; exact absurd hrun (by simp [Except.map])
  | ok l =>
    rw [hspec] at hrun
    simp only [Except.map, List.reverse_nil, List.nil_append, Except.ok.injEq] at hrun
    subst hrun
    exact genSpec_ok getBlock deser connect s c (min e chain) _ s u0 l hspec

/-! ## Claims about `generate_checkpoints` -/

/-- C1: when `generate_checkpoints` succeeds (every block of
`[start_height, actual_end]` fetched, deserialized and connected
`Valid`), with `actual_end = min end_height chain_height` and
`chunk_size ≥ 1`, the returned list contains exactly one entry for each
height `start_height + k·chunk_size - 1` (`k ≥ 1`) below `actual_end`
together with one entry at `actual_end`, in strictly ascending height
order, and each entry's UTXO set is the accumulated set immediately
after applying the block at that height. -/
theorem generate_checkpoints_heights_and_snapshots {B U : Type}
    (getBlock : Nat → Except String (List Nat))
    (deser : List Nat → Except String B)
    (connect : B → U → Nat → Except String (ValidationResult × U))
    (s e c chain : Nat) (u0 : U) (cps : List (Nat × U))
    (hc : 1 ≤ c) (hse : s ≤ min e chain)
    (hrun : generate_checkpoints getBlock deser connect s e c chain u0 = .ok cps) :
    (∀ h : Nat, h ∈ cps.map Prod.fst ↔
      ((∃ k, 1 ≤ k ∧ h = s + k * c - 1 ∧ h < min e chain) ∨ h = min e chain)) ∧
    List.Pairwise (· < ·) (cps.map Prod.fst) ∧
    ∀ p ∈ cps, applyBlocks getBlock deser connect u0 s (p.1 + 1 - s) = some p.2 := by
  obtain ⟨hfst, hmem⟩ :=
    generate_checkpoints_ok getBlock deser connect s e c chain u0 cps hc hrun
  refine ⟨?_, ?_, hmem⟩
  · intro h
    rw [hfst, List.mem_filter, List.mem_range'_1, decide_eq_true_eq]
    constructor
    · rintro ⟨⟨hsh, hlt⟩, hpred⟩
      rcases hpred with hb | hbEnd
      · by_cases hEnd : h = min e chain
        · exact Or.inr hEnd
        · obtain ⟨k, hk⟩ : ∃ k, (h + 1 - s) / c = k := ⟨_, rfl⟩
          have hkc : k * c = h + 1 - s := by
            rw [← hk]
            exact Nat.div_mul_cancel (Nat.dvd_of_mod_eq_zero hb)
          rcases Nat.eq_zero_or_pos k with rfl | hk1
          · exfalso
            simp only [Nat.zero_mul] at hkc
            omega
          · refine Or.inl ⟨k, hk1, by rw [hkc]; omega, by omega⟩
      · exact Or.inr hbEnd
    · rintro (⟨k, hk1, hkeq, hklt⟩ | rfl)
      · obtain ⟨t, ht⟩ : ∃ t, k * c = t := ⟨_, rfl⟩
        have ht1 : 1 ≤ t := by
          rw [← ht]
          have := Nat.mul_le_mul hk1 hc
          omega
        rw [ht] at hkeq
        refine ⟨⟨by omega, by omega⟩, Or.inl ?_⟩
        have hform : h + 1 - s = k * c := by rw [ht]; omega
        rw [hform, Nat.mul_mod_left]
      · exact ⟨⟨hse, by omega⟩, Or.inr rfl⟩
  · rw [hfst]
    exact (List.pairwise_lt_range' s _).filter _

/-- Witness for C1 at a concrete run: heights 0..5, chunk size 2, with
a counter UTXO set; checkpoints land at heights 1, 3 and 5 with
accumulated values 2, 4 and 6. -/
theorem generate_checkpoints_heights_and_snapshots_witness :
    (∀ h : Nat, h ∈ ([(1, 2), (3, 4), (5, 6)] : List (Nat × Nat)).map Prod.fst ↔
      ((∃ k, 1 ≤ k ∧ h = 0 + k * 2 - 1 ∧ h < min 5 5) ∨ h = min 5 5)) ∧
    List.Pairwise (· < ·) (([(1, 2), (3, 4), (5, 6)] : List (Nat × Nat)).map Prod.fst) ∧
    ∀ p ∈ ([(1, 2), (3, 4), (5, 6)] : List (Nat × Nat)),
      applyBlocks gbC dsC cnC 0 0 (p.1 + 1 - 0) = some p.2 :=
  generate_checkpoints_heights_and_snapshots gbC dsC cnC 0 5 2 5 0
    [(1, 2), (3, 4), (5, 6)] (by decide) (by decide) rfl

/-- Closed form of the checkpoint-height list: the boundary heights
`s + k·c - 1` for `k = 1 .. (aEnd - s)/c`, in order, followed by
`aEnd`. -/
theorem checkpoint_heights_closed (s c aEnd : Nat) (hc : 1 ≤ c) (hse : s ≤ aEnd) :
    (List.range' s (aEnd + 1 - s)).filter
      (fun x => decide ((x + 1 - s) % c = 0 ∨ x = aEnd)) =
    ((List.range' 1 ((aEnd - s) / c)).map fun k => s + k * c - 1) ++ [aEnd] := by
  have hbound : ∀ k, 1 ≤ k → k ≤ (aEnd - s) / c → 1 ≤ k * c ∧ k * c ≤ aEnd - s := by
    intro k hk1 hkK
    constructor
    · have := Nat.mul_le_mul hk1 hc
      omega
    · calc k * c ≤ ((aEnd - s) / c) * c := Nat.mul_le_mul_right c hkK
        _ ≤ aEnd - s := Nat.div_mul_le_self _ _
  have hsorted1 : List.Pairwise (· < ·)
      ((List.range' s (aEnd + 1 - s)).filter
        (fun x => decide ((x + 1 - s) % c = 0 ∨ x = aEnd))) :=
    (List.pairwise_lt_range' s _).filter _
  have hsorted2 : List.Pairwise (· < ·)
      (((List.range' 1 ((aEnd - s) / c)).map fun k => s + k * c - 1) ++ [aEnd]) := by
    rw [List.pairwise_append]
    refine ⟨?_, List.pairwise_singleton _ _, ?_⟩
    · rw [List.pairwise_map]
      refine List.Pairwise.imp_of_mem ?_ (List.pairwise_lt_range' 1 _)
      intro a b ha hb hab
      have ha1 : 1 ≤ a := (List.mem_range'_1.mp ha).1
      have h1 : a * c + c ≤ b * c := by
        have h2 : (a + 1) * c ≤ b * c := Nat.mul_le_mul_right c (by omega)
        have h3 : (a + 1) * c = a * c + c := by ring
        omega
      have h2 : 1 ≤ a * c := by
        have := Nat.mul_le_mul ha1 hc
        omega
      omega
    · intro x hx y hy
      simp only [List.mem_singleton] at hy
      subst hy
      obtain ⟨k, hk, rfl⟩ := List.mem_map.mp hx
      have hk' := List.mem_range'_1.mp hk
      obtain ⟨h1, h2⟩ := hbound k hk'.1 (by omega)
      omega
  haveI : IsAntisymm Nat (· < ·) := ⟨fun a b h1 h2 => absurd h2 (Nat.lt_asymm h1)⟩
  apply List.eq_of_perm_of_sorted ?_ hsorted1 hsorted2
  apply (List.perm_ext_iff_of_nodup
    (hsorted1.imp Nat.ne_of_lt) (hsorted2.imp Nat.ne_of_lt)).mpr
  intro x
  rw [List.mem_filter, List.mem_range'_1, decide_eq_true_eq, List.mem_append,
    List.mem_map]
  simp only [List.mem_range'_1, List.mem_singleton]
  constructor
  · rintro ⟨⟨h1, h2⟩, h3 | h4⟩
    · by_cases hEnd : x = aEnd
      · exact Or.inr hEnd
      · refine Or.inl ⟨(x + 1 - s) / c, ⟨?_, ?_⟩, ?_⟩
        · have hkc : (x + 1 - s) / c * c = x + 1 - s :=
            Nat.div_mul_cancel (Nat.dvd_of_mod_eq_zero h3)
          rcases Nat.eq_zero_or_pos ((x + 1 - s) / c) with hz | hpos
          · rw [hz] at hkc
            simp only [Nat.zero_mul] at hkc
            omega
          · omega
        · have hle : (x + 1 - s) / c ≤ (aEnd - s) / c := by
            apply Nat.div_le_div_right
            omega
          omega
        · have hkc : (x + 1 - s) / c * c = x + 1 - s :=
            Nat.div_mul_cancel (Nat.dvd_of_mod_eq_zero h3)
          omega
    · exact Or.inr h4
  · rintro (⟨k, ⟨hk1, hkK⟩, rfl⟩ | rfl)
    · obtain ⟨h1, h2⟩ := hbound k hk1 (by omega)
      refine ⟨⟨by omega, by omega⟩, Or.inl ?_⟩
      have hform : s + k * c - 1 + 1 - s = k * c := by omega
      rw [hform, Nat.mul_mod_left]
    · exact ⟨⟨hse, by omega⟩, Or.inr rfl⟩

/-- Past `actual_end` the chunk-construction loop emits nothing. -/
theorem mkChunksGo_done {U : Type} (cps : List (Nat × U)) (useCp : Bool)
    (s aEnd c : Nat) (e0 : U) (n cur idx : Nat) (hcur : aEnd < cur) :
    mkChunksGo cps useCp s aEnd c e0 n cur idx = [] := by
  cases n with
  | zero => rfl
  | succ m =>
    simp only [mkChunksGo]
    rw [if_neg (by omega)]

/-- The chunk-construction loop of `run_parallel_differential` with
checkpoints enabled: started at chunk index `i` (height `s + i·c`), it
produces one chunk per index `j = i .. (aEnd - s)/c`, the chunk for
`j` covering `[s + j·c, min (s + j·c + c - 1) aEnd]`, holding the empty
set for `j = 0` and checkpoint `j - 1` otherwise. -/
theorem mkChunksGo_spec {U : Type} (cps : List (Nat × U)) (s aEnd c : Nat) (e0 : U)
    (hc : 1 ≤ c) (hse : s ≤ aEnd) (hlen : cps.length = (aEnd - s) / c + 1) :
    ∀ (fuel i : Nat), i ≤ (aEnd - s) / c → (aEnd - s) / c + 1 - i ≤ fuel →
      mkChunksGo cps true s aEnd c e0 fuel (s + i * c) i =
        (List.range' i ((aEnd - s) / c + 1 - i)).map (fun j =>
          { start_height := s + j * c,
            end_height := min (s + j * c + c - 1) aEnd,
            checkpoint_utxo :=
              if j = 0 then some e0 else (cps.get? (j - 1)).map Prod.snd,
            skip_validation := false }) := by
  intro fuel
  induction fuel with
  | zero =>
    intro i hi hfuel
    exact absurd hfuel (by omega)
  | succ n ih =>
    intro i hi hfuel
    have hKc : ((aEnd - s) / c) * c ≤ aEnd - s := Nat.div_mul_le_self _ _
    have hic : i * c ≤ ((aEnd - s) / c) * c := Nat.mul_le_mul_right c hi
    have hguard : s + i * c ≤ aEnd := by omega
    simp only [mkChunksGo]
    rw [if_pos hguard]
    rw [show (aEnd - s) / c + 1 - i = (aEnd - s) / c - i + 1 from by omega,
      List.range'_succ, List.map_cons]
    congr 1
    · cases i with
      | zero => simp
      | succ m => simp
    · by_cases hiK : i < (aEnd - s) / c
      · have hi1c : (i + 1) * c ≤ ((aEnd - s) / c) * c :=
          Nat.mul_le_mul_right c (by omega)
        have hexp : (i + 1) * c = i * c + c := by ring
        have h1c : 1 ≤ i * c + c := by omega
        have hmin : min (s + i * c + c - 1) aEnd = s + i * c + c - 1 := by omega
        rw [hmin]
        rw [if_pos (by constructor <;> omega :
          s + i * c + c - 1 + 1 ≤ aEnd ∧ i < cps.length)]
        rw [show s + i * c + c - 1 + 1 = s + (i + 1) * c from by omega]
        rw [show (aEnd - s) / c - i = (aEnd - s) / c + 1 - (i + 1) from by omega]
        exact ih (i + 1) (by omega) (by omega)
      · have hiK' : i = (aEnd - s) / c := by omega
        have hdm := Nat.div_add_mod (aEnd - s) c
        have hmlt : (aEnd - s) % c < c := Nat.mod_lt _ (by omega)
        have hcomm : c * ((aEnd - s) / c) = ((aEnd - s) / c) * c := Nat.mul_comm _ _
        have hmin : min (s + i * c + c - 1) aEnd = aEnd := by
          rw [hiK']
          omega
        rw [hmin]
        rw [if_neg (by omega : ¬(aEnd + 1 ≤ aEnd ∧ i < cps.length))]
        rw [mkChunksGo_done cps true s aEnd c e0 n (aEnd + 1) i (by omega)]
        rw [show (aEnd - s) / c - i = 0 from by omega]
        simp

/-! ## Claims about the parallel dispatch -/

/-- C2: in `run_parallel_differential` with `use_checkpoints` enabled
(modelled by its chunk-construction stage `run_parallel_chunks`), the
chunks partition `[start_height, actual_end]`, `actual_end = min
end_height chain_height`, into consecutive ranges of at most
`chunk_size` blocks — chunk `i` covers `[s + i·c, min (s + i·c + c - 1)
actual_end]` — and the worker for chunk `i ≥ 1` is dispatched holding
the phase-A snapshot taken at height `s + i·c - 1` (the UTXO set
accumulated after applying exactly `i·c` blocks from `s`), while the
first chunk's worker holds the empty UTXO set. -/
theorem run_parallel_chunks_dispatch {B U : Type}
    (getBlock : Nat → Except String (List Nat))
    (deser : List Nat → Except String B)
    (connect : B → U → Nat → Except String (ValidationResult × U))
    (s e c chain : Nat) (emptyU : U) (chunks : List (BlockChunk U))
    (hc : 1 ≤ c) (hse : s ≤ min e chain)
    (hrun : run_parallel_chunks getBlock deser connect s e c chain emptyU = .ok chunks) :
    (chunks.map fun ch => (ch.start_height, ch.end_height)) =
      (List.range' 0 ((min e chain - s) / c + 1)).map
        (fun i => (s + i * c, min (s + i * c + c - 1) (min e chain))) ∧
    chunks.head? = some
      { start_height := s, end_height := min (s + c - 1) (min e chain),
        checkpoint_utxo := some emptyU, skip_validation := false } ∧
    (∀ i, 1 ≤ i → i ≤ (min e chain - s) / c →
      ∃ u, applyBlocks getBlock deser connect emptyU s (i * c) = some u ∧
        chunks.get? i = some
          { start_height := s + i * c,
            end_height := min (s + i * c + c - 1) (min e chain),
            checkpoint_utxo := some u, skip_validation := false }) := by
  simp only [run_parallel_chunks] at hrun
  cases hgen : generate_checkpoints getBlock deser connect s (min e chain) c chain
      emptyU with
  | error e' => rw [hgen] at hrun; exact absurd hrun (by simp [Except.map])
  | ok cps =>
    rw [hgen] at hrun
    simp only [Except.map, Except.ok.injEq] at hrun
    obtain ⟨hfst, hmem⟩ := generate_checkpoints_ok getBlock deser connect
      s (min e chain) c chain emptyU cps hc hgen
    rw [show min (min e chain) chain = min e chain from by omega] at hfst
    rw [checkpoint_heights_closed s c (min e chain) hc hse] at hfst
    have hlen : cps.length = (min e chain - s) / c + 1 := by
      have h1 : (cps.map Prod.fst).length = cps.length := List.length_map _ _
      rw [hfst] at h1
      simp at h1
      omega
    have hchunks := mkChunksGo_spec cps s (min e chain) c emptyU hc hse hlen
      (min e chain + 1 - s) 0 (Nat.zero_le _)
      (by
        have := Nat.div_le_self (min e chain - s) c
        omega)
    rw [show s + 0 * c = s from by ring] at hchunks
    rw [show (min e chain - s) / c + 1 - 0 = (min e chain - s) / c + 1 from by omega]
      at hchunks
    have hchunks' : chunks = (List.range' 0 ((min e chain - s) / c + 1)).map
        (fun j => { start_height := s + j * c,
                    end_height := min (s + j * c + c - 1) (min e chain),
                    checkpoint_utxo :=
                      if j = 0 then some emptyU else (cps.get? (j - 1)).map Prod.snd,
                    skip_validation := false }) := by
      rw [← hrun]
      exact hchunks
    refine ⟨?_, ?_, ?_⟩
    · rw [hchunks', List.map_map]
      rfl
    · rw [hchunks', List.range'_succ, List.map_cons]
      simp
    · intro i hi1 hiK
      have hgeti : chunks.get? i = some
          { start_height := s + i * c,
            end_height := min (s + i * c + c - 1) (min e chain),
            checkpoint_utxo := (cps.get? (i - 1)).map Prod.snd,
            skip_validation := false } := by
        rw [hchunks', List.get?_eq_getElem?, List.getElem?_map,
          List.getElem?_range' 0 1 (by omega : i < (min e chain - s) / c + 1)]
        simp only [Option.map_some']
        rw [show 0 + 1 * i = i from by omega, if_neg (by omega : ¬i = 0)]
      have hcpsi : Option.map Prod.fst (cps.get? (i - 1)) = some (s + i * c - 1) := by
        rw [List.get?_eq_getElem?, ← List.getElem?_map]
        rw [hfst]
        rw [List.getElem?_append_left (by simp; omega)]
        rw [List.getElem?_map, List.getElem?_range' 1 1 (by omega : i - 1 < (min e chain - s) / c)]
        simp only [Option.map_some']
        rw [show 1 + 1 * (i - 1) = i from by omega]
      cases hp : cps.get? (i - 1) with
      | none => rw [hp] at hcpsi; exact absurd hcpsi (by simp)
      | some p =>
        rw [hp] at hcpsi
        simp only [Option.map_some', Option.some.injEq] at hcpsi
        have hpmem : p ∈ cps := by
          rw [List.get?_eq_getElem?] at hp
          exact List.getElem?_mem hp
        have happ := hmem p hpmem
        have hic1 : 1 ≤ i * c := by
          have := Nat.mul_le_mul hi1 hc
          omega
        rw [show p.1 + 1 - s = i * c from by omega] at happ
        refine ⟨p.2, happ, ?_⟩
        rw [hgeti, hp]
        rfl

/-- C9 fails on the code (code bug): the harness performs no
boundary-condition check.  `ChunkResult` — a faithful model of the
source struct — carries no UTXO data (`validate_chunk` drops its final
working UTXO set when building the result), and
`run_parallel_differential` merely collects the per-chunk results; at a
concrete two-chunk checkpointed run the complete harness output is
exactly the two `ChunkResult`s.  Nowhere is the canonical serialization
of worker `i`'s final UTXO set compared with the checkpoint handed to
worker `i+1`, and the output has no channel in which an invariant
violation could be reported distinctly from the divergence lists. -/
theorem run_parallel_differential_no_boundary_check :
    run_parallel_differential gbC dsC cnC .DirectFile 0 3 2 3 0 =
      .ok [⟨0, 1, 2, 2, []⟩, ⟨2, 3, 2, 2, []⟩] := rfl

/-- Witness for C2 at a concrete run (heights 0..3, chunk size 2):
chunk 1 starts at height 2 and is dispatched with the snapshot taken at
height 1, the UTXO value after applying 2 blocks. -/
theorem run_parallel_chunks_dispatch_witness :
    ∃ u, applyBlocks gbC dsC cnC 0 0 (1 * 2) = some u ∧
      ([⟨0, 1, some 0, false⟩, ⟨2, 3, some 2, false⟩] : List (BlockChunk Nat)).get? 1 =
        some { start_height := 0 + 1 * 2,
               end_height := min (0 + 1 * 2 + 2 - 1) (min 3 3),
               checkpoint_utxo := some u, skip_validation := false } :=
  (run_parallel_chunks_dispatch gbC dsC cnC 0 3 2 3 0
    [⟨0, 1, some 0, false⟩, ⟨2, 3, some 2, false⟩]
    (by decide) (by decide) rfl).2.2 1 (by decide) (by decide)

/-! ## The `validate_chunk` loop versus its per-height trace -/

/-- The bookkeeping loop of `validate_chunk` computes exactly the
tested count, matched count and rendered divergence list of its
per-height trace. -/
theorem validateLoop_eq_trace {B U : Type} (getBlock : Nat → Except String (List Nat))
    (deser : List Nat → Except String B)
    (connect : B → U → Nat → Except String (ValidationResult × U))
    (src : BlockDataSource) (fuel : Nat) :
    ∀ (height : Nat) (utxo : U) (tested matched : Nat)
      (divergences : List (Nat × String × String)),
      validateLoop getBlock deser connect src fuel height utxo tested matched divergences =
        (runTrace getBlock deser connect src fuel height utxo).map
          (fun tr =>
            (tested + tr.length,
             matched + (tr.filter fun e => verdictsMatch e.2.1 e.2.2).length,
             divergences.reverse ++ tr.filterMap divergenceEntry)) := by
  induction fuel with
  | zero =>
    intro height utxo tested matched divergences
    simp [validateLoop, runTrace, Except.map]
  | succ n ih =>
    intro height utxo tested matched divergences
    cases hgb : getBlock height with
    | error e => simp [validateLoop, runTrace, hgb, Except.map]
    | ok block_bytes =>
      cases hpb : process_block deser connect src block_bytes height utxo with
      | error e => simp [validateLoop, runTrace, hgb, hpb, Except.map]
      | ok triple =>
        obtain ⟨blvm_result, core_result, new_utxo⟩ := triple
        simp only [validateLoop, runTrace, hgb, hpb]
        rw [ih (height + 1) new_utxo]
        cases htr : runTrace getBlock deser connect src n (height + 1) new_utxo with
        | error e => simp [htr, Except.map]
        | ok tr =>
          cases hm : verdictsMatch blvm_result core_result <;>
            simp [htr, Except.map, divergenceEntry, hm, List.filter_cons,
              List.filterMap_cons] <;> omega

/-- The trace of a chunk run visits exactly the consecutive heights the
loop enumerates. -/
theorem runTrace_heights {B U : Type} (getBlock : Nat → Except String (List Nat))
    (deser : List Nat → Except String B)
    (connect : B → U → Nat → Except String (ValidationResult × U))
    (src : BlockDataSource) (fuel : Nat) :
    ∀ (height : Nat) (utxo : U) tr,
      runTrace getBlock deser connect src fuel height utxo = .ok tr →
      tr.map Prod.fst = List.range' height fuel := by
  induction fuel with
  | zero =>
    intro height utxo tr htr
    simp only [runTrace, Except.ok.injEq] at htr
    subst htr
    simp
  | succ n ih =>
    intro height utxo tr htr
    cases hgb : getBlock height with
    | error e =>
      simp only [runTrace, hgb] at htr
      exact absurd htr (by simp)
    | ok block_bytes =>
      cases hpb : process_block deser connect src block_bytes height utxo with
      | error e =>
        simp only [runTrace, hgb, hpb] at htr
        exact absurd htr (by simp)
      | ok triple =>
        obtain ⟨blvm_result, core_result, new_utxo⟩ := triple
        cases htr2 : runTrace getBlock deser connect src n (height + 1) new_utxo with
        | error e =>
          simp only [runTrace, hgb, hpb, htr2] at htr
          exact absurd htr (by simp [Except.map])
        | ok tr' =>
          simp only [runTrace, hgb, hpb, htr2, Except.map, Except.ok.injEq] at htr
          subst htr
          rw [List.range'_succ]
          simp [ih (height + 1) new_utxo tr' htr2]

/-- A successful `validate_chunk` run determines a per-height trace,
and all the result's fields are its bookkeeping. -/
theorem validate_chunk_trace {B U : Type} (getBlock : Nat → Except String (List Nat))
    (deser : List Nat → Except String B)
    (connect : B → U → Nat → Except String (ValidationResult × U))
    (src : BlockDataSource) (chunk : BlockChunk U) (emptyU : U) (chain_height : Nat)
    (res : ChunkResult)
    (hrun : validate_chunk getBlock deser connect src chunk emptyU chain_height = .ok res) :
    ∃ tr, runTrace getBlock deser connect src
        (min chunk.end_height chain_height + 1 - chunk.start_height) chunk.start_height
        (chunk.checkpoint_utxo.getD emptyU) = .ok tr ∧
      tr.map Prod.fst = List.range' chunk.start_height
        (min chunk.end_height chain_height + 1 - chunk.start_height) ∧
      res.start_height = chunk.start_height ∧
      res.end_height = min chunk.end_height chain_height ∧
      res.tested = tr.length ∧
      res.matched = (tr.filter fun e => verdictsMatch e.2.1 e.2.2).length ∧
      res.divergences = tr.filterMap divergenceEntry := by
  simp only [validate_chunk] at hrun
  rw [validateLoop_eq_trace] at hrun
  cases htr : runTrace getBlock deser connect src
      (min chunk.end_height chain_height + 1 - chunk.start_height) chunk.start_height
      (chunk.checkpoint_utxo.getD emptyU) with
  | error e => rw [htr] at hrun; exact absurd hrun (by simp [Except.map])
  | ok tr =>
    rw [htr] at hrun
    simp only [Except.map, Except.ok.injEq] at hrun
    subst hrun
    exact ⟨tr, rfl,
      runTrace_heights getBlock deser connect src _ _ _ tr htr,
      rfl, rfl, by simp, by simp, by simp⟩

/-- Every trace entry is counted exactly once, as matched or as a
divergence. -/
theorem length_eq_matched_add_divergences :
    ∀ tr : List (Nat × ValidationResult × CoreValidationResult),
      tr.length = (tr.filter fun e => verdictsMatch e.2.1 e.2.2).length +
        (tr.filterMap divergenceEntry).length := by
  intro tr
  induction tr with
  | nil => simp
  | cons hd tl ih =>
    cases hm : verdictsMatch hd.2.1 hd.2.2 <;>
      simp [List.filter_cons, List.filterMap_cons, divergenceEntry, hm, ih] <;> omega

/-! ## Claims about `validate_chunk` -/

/-- C8: in `validate_chunk`, every processed block increments the
tested count (tested equals the trace length, the trace covering every
height of the range once); a block increments the matched count exactly
when the local and reference verdicts are both `Valid` or both
`Invalid` (reason strings notwithstanding); otherwise a divergence
triple `(height, rendered local verdict, rendered reference verdict)`
is appended, the local verdict rendered as `Valid` or
`Invalid(reason)`. -/
theorem validate_chunk_verdict_bookkeeping {B U : Type}
    (getBlock : Nat → Except String (List Nat))
    (deser : List Nat → Except String B)
    (connect : B → U → Nat → Except String (ValidationResult × U))
    (src : BlockDataSource) (chunk : BlockChunk U) (emptyU : U) (chain_height : Nat)
    (res : ChunkResult)
    (hrun : validate_chunk getBlock deser connect src chunk emptyU chain_height = .ok res) :
    (∀ blvm_result core_result, verdictsMatch blvm_result core_result = true ↔
      ((blvm_result = .Valid ∧ core_result = .Valid) ∨
        ∃ m1 m2, blvm_result = .Invalid m1 ∧ core_result = .Invalid m2)) ∧
    ∃ tr, runTrace getBlock deser connect src
        (min chunk.end_height chain_height + 1 - chunk.start_height) chunk.start_height
        (chunk.checkpoint_utxo.getD emptyU) = .ok tr ∧
      tr.map Prod.fst = List.range' chunk.start_height
        (min chunk.end_height chain_height + 1 - chunk.start_height) ∧
      res.tested = tr.length ∧
      res.matched = (tr.filter fun e => verdictsMatch e.2.1 e.2.2).length ∧
      res.divergences = tr.filterMap divergenceEntry := by
  constructor
  · intro blvm_result core_result
    cases blvm_result <;> cases core_result <;> simp [verdictsMatch]
  · obtain ⟨tr, htr, hh, _, _, ht, hm, hd⟩ :=
      validate_chunk_trace getBlock deser connect src chunk emptyU chain_height res hrun
    exact ⟨tr, htr, hh, ht, hm, hd⟩

/-- Witness for C8: a concrete chunk over heights 0..1 whose block at
height 1 is locally rejected against a `DirectFile` (always-`Valid`)
reference: tested 2, matched 1, one rendered divergence. -/
theorem validate_chunk_verdict_bookkeeping_witness :
    ∃ tr, runTrace gbC dsC cnMix .DirectFile 2 0 (0 : Nat) = .ok tr ∧
      tr.map Prod.fst = List.range' 0 2 ∧
      (2 : Nat) = tr.length ∧
      (1 : Nat) = (tr.filter fun e => verdictsMatch e.2.1 e.2.2).length ∧
      [(1, "Invalid(bad)", "Valid")] = tr.filterMap divergenceEntry :=
  (validate_chunk_verdict_bookkeeping gbC dsC cnMix .DirectFile ⟨0, 1, some 0, false⟩ 0 1
    ⟨0, 1, 2, 1, [(1, "Invalid(bad)", "Valid")]⟩ rfl).2

/-- C10: for every `ChunkResult` returned successfully by
`validate_chunk`, `tested = matched + divergences.length`, and every
height recorded in the divergence list lies between the result's
`start_height` and `end_height`. -/
theorem validate_chunk_counts_invariant {B U : Type}
    (getBlock : Nat → Except String (List Nat))
    (deser : List Nat → Except String B)
    (connect : B → U → Nat → Except String (ValidationResult × U))
    (src : BlockDataSource) (chunk : BlockChunk U) (emptyU : U) (chain_height : Nat)
    (res : ChunkResult)
    (hrun : validate_chunk getBlock deser connect src chunk emptyU chain_height = .ok res) :
    res.tested = res.matched + res.divergences.length ∧
    ∀ d ∈ res.divergences, res.start_height ≤ d.1 ∧ d.1 ≤ res.end_height := by
  obtain ⟨tr, htr, hh, hs, he, ht, hm, hd⟩ :=
    validate_chunk_trace getBlock deser connect src chunk emptyU chain_height res hrun
  constructor
  · rw [ht, hm, hd]
    exact length_eq_matched_add_divergences tr
  · intro d hdm
    rw [hd] at hdm
    obtain ⟨e, hetr, hde⟩ := List.mem_filterMap.mp hdm
    have hfst : d.1 = e.1 := by
      unfold divergenceEntry at hde
      cases hvm : verdictsMatch e.2.1 e.2.2 with
      | true => rw [hvm] at hde; exact absurd hde (by simp)
      | false =>
        rw [hvm] at hde
        simp only [Bool.false_eq_true, if_false, Option.some.injEq] at hde
        rw [← hde]
    have hmem : e.1 ∈ tr.map Prod.fst := List.mem_map_of_mem Prod.fst hetr
    rw [hh] at hmem
    have hrange := List.mem_range'_1.mp hmem
    rw [hs, he, hfst]
    omega

/-- Witness for C10 at the same concrete chunk: `2 = 1 + 1` and the
single divergence height 1 lies within `[0, 1]`. -/
theorem validate_chunk_counts_invariant_witness :
    (2 : Nat) = 1 + [((1 : Nat), "Invalid(bad)", "Valid")].length ∧
    ∀ d ∈ [((1 : Nat), "Invalid(bad)", "Valid")], (0 : Nat) ≤ d.1 ∧ d.1 ≤ 1 :=
  validate_chunk_counts_invariant gbC dsC cnMix .DirectFile ⟨0, 1, some 0, false⟩ 0 1
    ⟨0, 1, 2, 1, [(1, "Invalid(bad)", "Valid")]⟩ rfl

/-! ## Claims about `process_block` -/

/-- C7: for every block processed by `process_block` whose block source
is `DirectFile`, the reference verdict is `Valid`, regardless of the
block's contents or of the local verdict. -/
theorem process_block_directfile_core_valid {B U : Type}
    (deser : List Nat → Except String B)
    (connect : B → U → Nat → Except String (ValidationResult × U))
    (block_bytes : List Nat) (height : Nat) (utxo : U)
    (blvm_result : ValidationResult) (core_result : CoreValidationResult) (u' : U)
    (hrun : process_block deser connect .DirectFile block_bytes height utxo =
      .ok (blvm_result, core_result, u')) :
    core_result = .Valid := by
  unfold process_block at hrun
  cases hd : deser block_bytes with
  | error e => rw [hd] at hrun; exact absurd hrun (by simp)
  | ok block =>
    rw [hd] at hrun
    simp only [coreVerdict, Except.ok.injEq, Prod.mk.injEq] at hrun
    exact hrun.2.1.symm

/-- Witness for C7: a concrete `DirectFile` run (here with a connect
function that rejects the block) still reports the reference verdict
`Valid`. -/
theorem process_block_directfile_core_valid_witness :
    ∃ r, process_block dsC cnBad .DirectFile (List.replicate 88 1) 0 (7 : Nat) =
        .ok r ∧ r.2.1 = CoreValidationResult.Valid :=
  ⟨(.Invalid "bad", .Valid, 7), rfl,
    process_block_directfile_core_valid dsC cnBad (List.replicate 88 1) 0 7
      (.Invalid "bad") .Valid 7 rfl⟩

/-- C3: in phase B, a block whose local verdict is `Invalid(reason)`
leaves the worker's working UTXO set exactly as it was before the
block, under the spec-modelled contract that `connect_block` discards
its working state on failure (`ConnectDiscardsOnInvalid`).  Both
failure paths are covered: an `Err` from `connect_block` never touches
the set, and an `Ok(Invalid(..), utxo, ..)` hands back the input set by
that contract even though `process_block` unconditionally stores the
returned set. -/
theorem process_block_invalid_preserves_utxo {B U : Type}
    (deser : List Nat → Except String B)
    (connect : B → U → Nat → Except String (ValidationResult × U))
    (hconn : ConnectDiscardsOnInvalid connect)
    (src : BlockDataSource) (block_bytes : List Nat) (height : Nat) (utxo : U)
    (msg : String) (core_result : CoreValidationResult) (u' : U)
    (hrun : process_block deser connect src block_bytes height utxo =
      .ok (.Invalid msg, core_result, u')) :
    u' = utxo := by
  cases hd : deser block_bytes with
  | error e =>
    unfold process_block at hrun
    rw [hd] at hrun
    exact absurd hrun (by simp)
  | ok block =>
    cases hc : connect block utxo height with
    | error e =>
      unfold process_block at hrun
      rw [hd] at hrun
      simp only [hc, Except.ok.injEq, Prod.mk.injEq] at hrun
      exact hrun.2.2.symm
    | ok p =>
      obtain ⟨result, new_utxo⟩ := p
      unfold process_block at hrun
      rw [hd] at hrun
      cases result with
      | Valid =>
        simp only [hc, Except.ok.injEq, Prod.mk.injEq] at hrun
        exact absurd hrun.1 (by simp)
      | Invalid m =>
        simp only [hc, Except.ok.injEq, Prod.mk.injEq,
          ValidationResult.Invalid.injEq] at hrun
        rw [← hrun.2.2]
        exact hconn block utxo height m new_utxo (hrun.1 ▸ hc)

/-- Witness for C3: a concrete run with a connect function that rejects
the block and discards its state leaves the working UTXO set at its
input value 7. -/
theorem process_block_invalid_preserves_utxo_witness :
    ∃ r, process_block dsC cnBad .DirectFile (List.replicate 88 1) 0 (7 : Nat) =
        .ok r ∧ r.1 = ValidationResult.Invalid "bad" ∧ r.2.2 = 7 :=
  ⟨(.Invalid "bad", .Valid, 7), rfl, rfl,
    process_block_invalid_preserves_utxo dsC cnBad
      (by
        intro b u h msg u' he
        simp only [cnBad, Except.ok.injEq, Prod.mk.injEq] at he
        exact he.2.symm)
      .DirectFile (List.replicate 88 1) 0 7 "bad" .Valid 7 rfl⟩
